import Mathlib

/-!
Shallow embedding of the onedriver core (Go sources: the DriveItem file and
src/graph/fusefs.go) for checking the natural-language specification.

Modelling conventions:
* Go strings are modelled as `List Char` (`Str`), Go `[]byte` buffers as
  `List Nat` (`Bytes`).
* Go machine integers: `int`/`int64` offsets are `Int`; `uint32`/`uint64`
  fields are `Nat`, with `% 2^32` written out where a `uint32` result is
  produced (NLink, Write's returned count).
* Go slice expressions panic when the bounds are invalid; a fallible
  operation is modelled with `Option`, `none` standing for a runtime
  panic.  A slicing whose upper bound is the slice's *length* (`Read`'s
  `[off:end]` with `end` pre-clipped to the length, `Write`'s in-place
  `[offset:]`) is capacity-independent, but `[:offset]` in `Write`'s
  append branch and `[:size]` in `Truncate` are checked against the
  *capacity*.  An item therefore carries, next to its visible buffer
  `dat`, the stale bytes `datTail` of the backing array between the
  buffer's length and its capacity (`cap = len + datTail.length`):
  empty for a freshly allocated buffer (`var empty []byte` has capacity
  0), grown by a shrinking `Truncate` (the backing array is retained),
  overwritten or consumed by within-capacity appends, and supplied by
  the fetch oracle for downloaded bodies (the io machinery picks that
  allocation).  An append that outgrows the capacity reallocates; Go's
  growth policy is implementation-defined, the model sets the slack
  after such an append to empty, and nothing proved here depends on
  that choice.
* `DriveItem.Parent` is a nullable pointer in Go; it is `Option ParentRef`
  here and dereferencing `none` is a panic.  The `item` back-reference
  inside `DriveItemParent` is used only by `getRoot`/`Flush` (not needed by
  any claim) and is omitted.
* The unexported fields (`data`, `hasChanges`, `mode`, `children`, `auth`)
  are invisible to `encoding/json`, so unmarshalling a remote response into
  an existing item leaves them unchanged, and a freshly unmarshalled item
  has their zero values (`nil`, `false`, `0`, `nil`).
* Network calls (`Get`, `Put`, `Post`, `Delete`) are abstracted as oracle
  arguments of type `Except Str _`; an operation reports whether it
  consulted the oracle via an explicit `Bool` ("network used") component,
  so "performs no remote call" is statable.  `Path`, `Read`, `Write`,
  `Truncate` take no oracle at all: they are network-free by construction,
  mirroring the source, which performs no I/O in those methods.
-/

namespace OnedriverSpec

abbrev Str := List Char

abbrev Bytes := List Nat

/-- Convert a Lean string literal to the `List Char` model of Go strings. -/
def str (s : String) : Str := s.data

/-- The fuse status codes used by the embedded operations
(`fuse.OK`, `fuse.ENOENT`, `fuse.EREMOTEIO`, `fuse.EPERM`). -/
inductive Status : Type where
  | OK : Status
  | ENOENT : Status
  | EREMOTEIO : Status
  | EPERM : Status
deriving DecidableEq

/-- Embeds `DriveItemParent` (the Graph API's `parentReference`): the parent's
remote ID and its path.  The `item` back-reference is omitted (see the
module docstring). -/
structure ParentRef : Type where
  pid : Str
  ppath : Str
deriving DecidableEq

/-- Embeds `DriveItem`: one file or folder.  Fields, in order, mirror the Go
struct: remote `ID`, `Name`, `Size` (uint64), `ModifyTime` (nullable
pointer, a Unix timestamp here), the unexported lazily-computed `mode`
(uint32), the unexported `hasChanges` dirty flag, the unexported
`data *[]byte` buffer (`none` = nil pointer) together with the stale
tail of its backing array (see the module docstring; meaningful only
when the buffer is present), the nullable `Parent`
reference, the `Folder` facet (nullable; payload is its `ChildCount`),
the `FileAPI` facet (nullable; payload is its `MimeType`), and the
unexported `children` map (`none` = nil map, modelled as an association
list from leaf name to child). -/
inductive Item : Type where
  | mk
      (id : Str) (name : Str) (size : Nat) (mtime : Option Int)
      (modeF : Nat) (hasChanges : Bool) (dat : Option Bytes) (datTail : Bytes)
      (parentRef : Option ParentRef)
      (folder : Option Nat) (fileAPI : Option Str)
      (children : Option (List (Str × Item))) : Item

def Item.id : Item → Str
  | .mk v _ _ _ _ _ _ _ _ _ _ _ => v

def Item.name : Item → Str
  | .mk _ v _ _ _ _ _ _ _ _ _ _ => v

def Item.size : Item → Nat
  | .mk _ _ v _ _ _ _ _ _ _ _ _ => v

def Item.mtime : Item → Option Int
  | .mk _ _ _ v _ _ _ _ _ _ _ _ => v

def Item.modeF : Item → Nat
  | .mk _ _ _ _ v _ _ _ _ _ _ _ => v

def Item.hasChanges : Item → Bool
  | .mk _ _ _ _ _ v _ _ _ _ _ _ => v

def Item.dat : Item → Option Bytes
  | .mk _ _ _ _ _ _ v _ _ _ _ _ => v

def Item.datTail : Item → Bytes
  | .mk _ _ _ _ _ _ _ v _ _ _ _ => v

def Item.parentRef : Item → Option ParentRef
  | .mk _ _ _ _ _ _ _ _ v _ _ _ => v

def Item.folder : Item → Option Nat
  | .mk _ _ _ _ _ _ _ _ _ v _ _ => v

def Item.fileAPI : Item → Option Str
  | .mk _ _ _ _ _ _ _ _ _ _ v _ => v

def Item.children : Item → Option (List (Str × Item))
  | .mk _ _ _ _ _ _ _ _ _ _ _ v => v

/-- Value of `fuse.S_IFDIR` (= `syscall.S_IFDIR` = 0o40000). -/
def S_IFDIR : Nat := 16384

/-- Value of `fuse.S_IFREG` (= `syscall.S_IFREG` = 0o100000). -/
def S_IFREG : Nat := 32768

/-- Embeds `DriveItem.Mode`: returns the cached mode, lazily computing it from the
facet markers when the field is still zero (only zero when the item was
fetched from the Graph API): `S_IFDIR|0755` when `FileAPI` is nil (a
folder), else `S_IFREG|0644`.  The value computed, without the caching
side effect (the by-value receivers in the source discard it anyway). -/
def Item.Mode (d : Item) : Nat :=
  if d.modeF = 0 then
    if d.fileAPI = none then S_IFDIR ||| 0o755 else S_IFREG ||| 0o644
  else d.modeF

/-- Embeds `DriveItem.IsDir`: whether the directory bit of `Mode()` is set. -/
def Item.IsDir (d : Item) : Bool := Nat.land d.Mode S_IFDIR != 0

/-- The `"/drive/root:"` path marker that the Graph API puts in front of
every root-relative path. -/
def drivePre : Str := str ("/drive/root:")

/-- Go's `strings.TrimPrefix s pre` (arguments flipped: marker first):
drops `pre` from the front of `s` when it is a prefix, else returns `s`
unchanged. -/
def trimPre (pre s : Str) : Str :=
  if pre.isPrefixOf s then s.drop pre.length else s

/-- Embeds `DriveItem.Path`: `"/"` for the root item (empty parent path and name
`"root"`); otherwise the stored parent path, `"/"`, and the name,
concatenated and with the `"/drive/root:"` marker trimmed from the front.
`none` models the nil-pointer dereference when `Parent` is nil. -/
def Item.Path (d : Item) : Option Str :=
  match d.parentRef with
  | none => none
  | some p =>
    if p.ppath = [] ∧ d.name = str ("root") then some (str ("/"))
    else some (trimPre drivePre (p.ppath ++ str ("/") ++ d.name))

/-- Replace an item's `children` field (the mutation `d.children = ...`). -/
def Item.setChildren : Item → Option (List (Str × Item)) → Item
  | .mk i n sz mt md hc dt tl pr f fa _, ch => .mk i n sz mt md hc dt tl pr f fa ch

/-- Replace an item's buffer (visible bytes and backing-array tail),
`Size` and dirty flag together (the mutation sequence shared by `Write`
and `Truncate`). -/
def Item.setDatSizeDirty : Item → Bytes → Bytes → Item
  | .mk i n _ mt md _ _ _ pr f fa ch, bs, tl =>
    .mk i n bs.length mt md true (some bs) tl pr f fa ch

/-- Embeds `DriveItem.NLink`'s loop body: count the children that are directories,
as the `uint32` counter `nSubdir` does (wrapping at `2^32`). -/
def countSubdirsU32 : List (Str × Item) → Nat
  | [] => 0
  | (_, c) :: rest =>
    if c.IsDir then (countSubdirsU32 rest + 1) % 2 ^ 32 else countSubdirsU32 rest

/-- Embeds `DriveItem.NLink`: for a directory, `2 + nSubdir` where `nSubdir`
counts the immediate children that are directories (ranging over a nil
`children` map runs the loop zero times); `1` for a file.  All `uint32`
arithmetic, hence the `% 2^32`. -/
def Item.NLink (d : Item) : Nat :=
  if d.IsDir then (2 + countSubdirsU32 (d.children.getD [])) % 2 ^ 32 else 1

/-- Embeds `DriveItem.Read`: `end := int(off) + len(buf)`, clipped to the buffer
length, then the slice `(*d.data)[off:end]` is returned with `fuse.OK`.
`none` models the nil-pointer dereference when `data` is nil and the
slice-bounds panic when `off < 0` or `off > end`. -/
def Item.Read (d : Item) (bufLen : Nat) (off : Int) : Option (Bytes × Status) :=
  match d.dat with
  | none => none
  | some bs =>
    let e : Int := if off + bufLen > (bs.length : Int) then (bs.length : Int) else off + bufLen
    if 0 ≤ off ∧ off ≤ e then
      some (((bs.drop off.toNat).take (e.toNat - off.toNat)), Status.OK)
    else none

/-- Embeds `DriveItem.Write`: when `offset + nWrite > int(d.Size) - 1` the buffer
becomes `append((*d.data)[:offset], data...)`; otherwise
`copy((*d.data)[offset:], data)` overwrites in place.  Either way `Size`
becomes the new buffer length and `hasChanges` is set; the returned count
is `uint32(nWrite)`.  `none` models the nil-buffer dereference and the
slice-bounds panics: `(*d.data)[:offset]` in the append branch is legal
for `0 ≤ offset ≤ cap` (capacity = length of `bs ++ d.datTail`), exposing
the stale backing-array bytes when `offset` exceeds the length, while
`(*d.data)[offset:]` in the copy branch is legal for
`0 ≤ offset ≤ len(*d.data)` only.  A within-capacity append keeps the
backing array (the slack beyond the written bytes survives); an append
that outgrows the capacity reallocates (modelled with empty slack, see
the module docstring). -/
def Item.Write (d : Item) (data : Bytes) (off : Int) : Option (Item × Nat × Status) :=
  match d.dat with
  | none => none
  | some bs =>
    let nWrite := data.length
    if off + (nWrite : Int) > (d.size : Int) - 1 then
      if 0 ≤ off ∧ off ≤ ((bs.length + d.datTail.length : Nat) : Int) then
        some (d.setDatSizeDirty ((bs ++ d.datTail).take off.toNat ++ data)
          (if off.toNat + nWrite ≤ bs.length + d.datTail.length
            then (bs ++ d.datTail).drop (off.toNat + nWrite) else []),
          nWrite % 2 ^ 32, Status.OK)
      else none
    else
      if 0 ≤ off ∧ off ≤ (bs.length : Int) then
        let o := off.toNat
        let m := min nWrite (bs.length - o)
        some (d.setDatSizeDirty (bs.take o ++ data.take m ++ bs.drop (o + m)) d.datTail,
          nWrite % 2 ^ 32, Status.OK)
      else none

/-- Embeds `DriveItem.Truncate`: `*d.data = (*d.data)[:size]`, `Size` updated,
dirty flag set.  `none` models the nil-buffer dereference and the
slice-bounds panic when `size` exceeds the buffer's *capacity*; a resize
within the capacity succeeds — shrinking moves the cut bytes into the
backing-array slack, and a growing resize within spare capacity exposes
the stale slack bytes (beyond the capacity nothing grows: the source has
no reallocating truncation path). -/
def Item.Truncate (d : Item) (size : Nat) : Option (Item × Status) :=
  match d.dat with
  | none => none
  | some bs =>
    if size ≤ bs.length + d.datTail.length then
      some (d.setDatSizeDirty ((bs ++ d.datTail).take size) ((bs ++ d.datTail).drop size),
        Status.OK)
    else none

/-- Embeds `DriveItem.FetchContent`: on oracle success the body replaces the
buffer wholesale (dirty flag, size and everything else untouched); on
failure the error propagates and the item is unchanged.  The oracle also
supplies the downloaded buffer's allocation slack (its backing array
beyond the body's length), which the io machinery chooses. -/
def Item.FetchContent (d : Item) (fetch : Except Str (Bytes × Bytes)) : Except Str Item :=
  match fetch with
  | .error e => .error e
  | .ok body =>
    match d with
    | .mk i n sz mt md hc _ _ pr f fa ch =>
      .ok (.mk i n sz mt md hc (some body.1) body.2 pr f fa ch)

/-- Embeds `DriveItem.Utimens`: stores the supplied (nullable) mtime pointer. -/
def Item.Utimens (d : Item) (t : Option Int) : Item :=
  match d with
  | .mk i n sz _ md hc dt tl pr f fa ch => .mk i n sz t md hc dt tl pr f fa ch

/-- A remote item descriptor as `encoding/json` sees it: each exported
field is present (`some`) or absent.  Unexported fields cannot appear. -/
structure RawPatch : Type where
  rid : Option Str
  rname : Option Str
  rsize : Option Nat
  rmtime : Option Int
  rparent : Option ParentRef
  rfolder : Option Nat
  rfileAPI : Option Str

/-- JSON decoding of one nullable-pointer field: a present value replaces
the pointer, an absent key leaves it. -/
def patchPtr (new old : Option α) : Option α :=
  match new with
  | none => old
  | some v => some v

/-- Embeds `json.Unmarshal(resp, d)` into an *existing* item: present exported
fields are overwritten, absent ones and all unexported fields (`data`,
`hasChanges`, `mode`, `children`) are left untouched. -/
def applyPatch (d : Item) (p : RawPatch) : Item :=
  match d with
  | .mk i n sz mt md hc dt tl pr f fa ch =>
    .mk (p.rid.getD i) (p.rname.getD n) (p.rsize.getD sz) (patchPtr p.rmtime mt)
      md hc dt tl (patchPtr p.rparent pr) (patchPtr p.rfolder f) (patchPtr p.rfileAPI fa) ch

/-- Unmarshalling a remote response into a *fresh* `DriveItem` struct
(as `GetChildren` does for each listed child): the unexported fields keep
their Go zero values — nil buffer, `hasChanges = false`, `mode = 0`,
nil children map. -/
def unmarshalFresh (p : RawPatch) : Item :=
  applyPatch (.mk [] [] 0 none 0 false none [] none none none none) p

/-- Embeds `DriveItem.Upload`: reads `*d.data` (nil dereference if absent), `Put`s
it (the oracle), and on success unmarshals the response into the existing
item.  On oracle failure the error propagates with the item unchanged. -/
def Item.Upload (d : Item) (put : Except Str RawPatch) : Option (Except Str Item) :=
  match d.dat with
  | none => none
  | some _ =>
    match put with
    | .error e => some (.error e)
    | .ok p => some (.ok (applyPatch d p))

/-- Embeds `NewDriveItem name mode parent`: a locally created item with an empty
(non-nil) buffer, a freshly `make`d (non-nil, empty) children map, the
given mode, and a parent reference built from
`parent.Parent.Path + "/" + parent.Name` (dereferencing `parent.Parent`,
hence `none` when the parent's own reference is nil).  `tNow` stands for
`time.Now()`. -/
def NewDriveItem (name : Str) (mode : Nat) (parent : Item) (tNow : Int) : Option Item :=
  match parent.parentRef with
  | none => none
  | some pp =>
    some (.mk [] name 0 (some tNow) mode false (some []) []
      (some ⟨parent.id, pp.ppath ++ str ("/") ++ parent.name⟩) none none (some []))

/-- Go map assignment `m[k] = v` on the association-list model: replaces
the binding when the key exists, otherwise appends it. -/
def mapSet : List (Str × Item) → Str → Item → List (Str × Item)
  | [], k, v => [(k, v)]
  | (k₀, v₀) :: rest, k, v =>
    if k₀ = k then (k, v) :: rest else (k₀, v₀) :: mapSet rest k v

/-- The loop of `GetChildren`'s fill path: insert each fetched child into
the fresh map keyed by its name (the `Parent.item` back-reference the loop
also sets is omitted from the model). -/
def buildChildMap (raws : List Item) : List (Str × Item) :=
  raws.foldl (fun m c => mapSet m c.name c) []

/-- Embeds `DriveItem.GetChildren`: when the item is not a directory or its
children map is already non-nil, the cached map (possibly nil) is returned
with no error and no network use.  Otherwise the item's path is built
(dereferencing `Parent` — `none` models that nil-pointer panic), the
listing oracle is consulted, an oracle error propagates leaving the item
unchanged, and on success a fresh map is filled from the fetched children
and installed.  Result: (value-or-error, updated item, network used). -/
def Item.GetChildren (d : Item) (fetch : Except Str (List Item)) :
    Option (Except Str (Option (List (Str × Item))) × Item × Bool) :=
  if !d.IsDir || d.children.isSome then
    some (.ok d.children, d, false)
  else
    match d.parentRef with
    | none => none
    | some _ =>
      match fetch with
      | .error e => some (.error e, d, true)
      | .ok raws =>
        let m := buildChildMap raws
        some (.ok (some m), d.setChildren (some m), true)

/-- Embeds `FuseFs.Rmdir`: prepends `"/"` (the path is only passed to the lookup
oracle here), resolves the item via `GetItem` (the `lookup` oracle), and
on failure returns `fuse.EREMOTEIO`; otherwise `Delete`s by the item's ID
(the `del` oracle), again answering `EREMOTEIO` on failure, else `OK`. -/
def FuseRmdir (lookup : Except Str Item) (del : Str → Except Str Unit) : Status :=
  match lookup with
  | .error _ => Status.EREMOTEIO
  | .ok item =>
    match del item.id with
    | .error _ => Status.EREMOTEIO
    | .ok _ => Status.OK

/-- Go RE2 `\w`: `[0-9A-Za-z_]`. -/
def isWordChar (c : Char) : Bool :=
  (('0' ≤ c ∧ c ≤ '9') ∨ ('A' ≤ c ∧ c ≤ 'Z') ∨ ('a' ≤ c ∧ c ≤ 'z') ∨ c = '_' : Prop)

/-- Embeds `regexp.MustCompile(` `\w+$` `).FindStringIndex(s)[0]`: the start of
the leftmost match.  `\w+$` matches at position `i` exactly when the
suffix from `i` is non-empty and all word characters, so the leftmost
scan tries each position in turn. -/
def findWPlusIdx : Str → Option Nat
  | [] => none
  | c :: rest =>
    if isWordChar c && rest.all isWordChar then some 0
    else (findWPlusIdx rest).map (· + 1)

/-- Embeds `FuseFs.Mkdir`'s path normalization: prepend `"/"` and, if the
last character is `'/'`, drop exactly that one trailing slash (the
prepended name is never empty, so the index `name[len(name)-1]` is safe). -/
def mkdirStripped (rawName : Str) : Str :=
  let name := str ("/") ++ rawName
  if name.getLast? = some '/' then name.dropLast else name

/-- Embeds `FuseFs.Mkdir`'s path split: on the normalized name, find the
leftmost `\w+$` match and cut there into `(parent, child)`.  `none` models
the panic of indexing `FindStringIndex`'s nil result when the regexp does
not match. -/
def mkdirSplit (rawName : Str) : Option (Str × Str) :=
  match findWPlusIdx (mkdirStripped rawName) with
  | none => none
  | some i => some ((mkdirStripped rawName).take i, (mkdirStripped rawName).drop i)

/-- The maximal trailing run of word characters of a string — the
specification's description of the leaf that `Mkdir` extracts. -/
def trailingRun (s : Str) : Str := (s.reverse.takeWhile isWordChar).reverse

/-- One local operation on an item, for stating whole-lifecycle
invariants.  Each constructor carries the oracle answer its operation
would get from the network. -/
inductive Op : Type where
  | write (data : Bytes) (off : Int) : Op
  | truncate (size : Nat) : Op
  | utimens (t : Option Int) : Op
  | fetchContent (result : Except Str (Bytes × Bytes)) : Op
  | getChildren (result : Except Str (List Item)) : Op
  | upload (result : Except Str RawPatch) : Op
  | modeInit : Op

/-- The item state after one operation (`none` = the operation panicked).
`fetchContent`, `getChildren` and `upload` leave the item unchanged when
their oracle fails; `modeInit` is the lazy `Mode()` computation performed
through a pointer receiver. -/
def step (d : Item) : Op → Option Item
  | .write data off => (d.Write data off).map (·.1)
  | .truncate size => (d.Truncate size).map (·.1)
  | .utimens t => some (d.Utimens t)
  | .fetchContent r =>
    match d.FetchContent r with
    | .error _ => some d
    | .ok d' => some d'
  | .getChildren r => (d.GetChildren r).map (fun x => x.2.1)
  | .upload r =>
    match d.Upload r with
    | none => none
    | some (.error _) => some d
    | some (.ok d') => some d'
  | .modeInit =>
    match d with
    | .mk i n sz mt _ hc dt tl pr f fa ch => some (.mk i n sz mt d.Mode hc dt tl pr f fa ch)

/-! Concrete items used as test inputs by the witnesses and
counterexamples below. -/

/-- A freshly created local file item with an empty (length-0, capacity-0)
buffer, as `NewDriveItem` builds one. -/
def exEmptyFile : Item :=
  .mk (str ("id1")) (str ("f")) 0 none (32768 + 420) false (some []) []
    (some ⟨str ("rootid"), drivePre⟩) none none (some [])

/-- A file item whose buffer holds the three bytes `[7, 8, 9]`. -/
def exSmallFile : Item :=
  .mk (str ("id2")) (str ("g")) 3 none 0 false (some [7, 8, 9]) []
    (some ⟨str ("rootid"), drivePre⟩) none (some (str ("text/plain"))) none

/-- The root item as fetched remotely: empty parent path, name `"root"`. -/
def exRootItem : Item :=
  .mk (str ("rootid")) (str ("root")) 0 none 0 false none []
    (some ⟨[], []⟩) (some 1) none none

/-- A remotely fetched child of the root named `"foo"`: the Graph API
stores `"/drive/root:"` as its parent path. -/
def exChildFoo : Item :=
  .mk (str ("fooid")) (str ("foo")) 0 none 0 false none []
    (some ⟨str ("rootid"), drivePre⟩) none (some (str ("text/plain"))) none

/-- A remotely fetched subdirectory item (no file facet, mode still 0). -/
def exSubdir1 : Item :=
  .mk (str ("d1id")) (str ("d1")) 0 none 0 false none []
    (some ⟨str ("bigid"), drivePre ++ str ("/big")⟩) (some 0) none none

/-- A second remotely fetched subdirectory item. -/
def exSubdir2 : Item :=
  .mk (str ("d2id")) (str ("d2")) 0 none 0 false none []
    (some ⟨str ("bigid"), drivePre ++ str ("/big")⟩) (some 0) none none

/-- A remotely fetched plain-file child item. -/
def exFileChild : Item :=
  .mk (str ("f1id")) (str ("f1")) 0 none 0 false none []
    (some ⟨str ("bigid"), drivePre ++ str ("/big")⟩) none (some (str ("text/plain"))) none

/-- A directory whose cached children map holds three entries of which two
are directories — the specification's NLink example. -/
def exBigDir : Item :=
  .mk (str ("bigid")) (str ("big")) 0 none 0 false none []
    (some ⟨str ("rootid"), drivePre⟩) (some 3) none
    (some [(str ("d1"), exSubdir1), (str ("d2"), exSubdir2), (str ("f1"), exFileChild)])

/-- An unfilled directory (nil children map), as fetched remotely. -/
def exEmptyDir : Item :=
  .mk (str ("dirid")) (str ("dir")) 0 none 0 false none []
    (some ⟨str ("rootid"), drivePre⟩) (some 2) none none

/-! Projection lemmas for the field-replacement helpers. -/

@[simp] theorem hasChanges_setDatSizeDirty (d : Item) (bs tl : Bytes) :
    (d.setDatSizeDirty bs tl).hasChanges = true := by
  cases d; rfl

@[simp] theorem dat_setDatSizeDirty (d : Item) (bs tl : Bytes) :
    (d.setDatSizeDirty bs tl).dat = some bs := by
  cases d; rfl

@[simp] theorem size_setDatSizeDirty (d : Item) (bs tl : Bytes) :
    (d.setDatSizeDirty bs tl).size = bs.length := by
  cases d; rfl

@[simp] theorem datTail_setDatSizeDirty (d : Item) (bs tl : Bytes) :
    (d.setDatSizeDirty bs tl).datTail = tl := by
  cases d; rfl

@[simp] theorem hasChanges_setChildren (d : Item) (ch : Option (List (Str × Item))) :
    (d.setChildren ch).hasChanges = d.hasChanges := by
  cases d; rfl

@[simp] theorem children_setChildren (d : Item) (ch : Option (List (Str × Item))) :
    (d.setChildren ch).children = ch := by
  cases d; rfl

@[simp] theorem hasChanges_applyPatch (d : Item) (p : RawPatch) :
    (applyPatch d p).hasChanges = d.hasChanges := by
  cases d; rfl

@[simp] theorem hasChanges_utimens (d : Item) (t : Option Int) :
    (d.Utimens t).hasChanges = d.hasChanges := by
  cases d; rfl

/-! Shared lemmas. -/

theorem isPre_append (pre s : Str) : pre.isPrefixOf (pre ++ s) = true := by
  induction pre with
  | nil => simp [List.isPrefixOf]
  | cons c t ih => simp [List.isPrefixOf, ih]

/-- Trimming a marker off a string that visibly starts with it leaves the
rest. -/
theorem trimPre_append (pre s : Str) : trimPre pre (pre ++ s) = s := by
  unfold trimPre
  rw [if_pos (isPre_append pre s), List.drop_left]

/-- The `uint32` subdirectory counter agrees with the abstract count while
the count is below `2^32`. -/
theorem countSubdirsU32_eq_countP (l : List (Str × Item))
    (h : l.countP (fun x => x.2.IsDir) < 2 ^ 32) :
    countSubdirsU32 l = l.countP (fun x => x.2.IsDir) := by
  induction l with
  | nil => rfl
  | cons x rest ih =>
    by_cases hx : x.2.IsDir = true
    · have hcount : (x :: rest).countP (fun y => y.2.IsDir) =
          rest.countP (fun y => y.2.IsDir) + 1 :=
        List.countP_cons_of_pos _ _ hx
      rw [hcount] at h ⊢
      have hrest : rest.countP (fun y => y.2.IsDir) < 2 ^ 32 := by omega
      obtain ⟨k, v⟩ := x
      simp only [countSubdirsU32, hx, if_pos, ih hrest] at *
      exact Nat.mod_eq_of_lt h
    · have hcount : (x :: rest).countP (fun y => y.2.IsDir) =
          rest.countP (fun y => y.2.IsDir) :=
        List.countP_cons_of_neg _ _ (by simpa using hx)
      rw [hcount] at h ⊢
      obtain ⟨k, v⟩ := x
      simp only [countSubdirsU32, hx, if_neg, ih h]
      simp [hx, ih h]

/-- In-bounds reads serve the buffered bytes starting at the offset,
clipped to the buffer length. -/
theorem read_serves (d : Item) (bs : Bytes) (bufLen : Nat) (off : Int)
    (hdat : d.dat = some bs) (h0 : 0 ≤ off) (hle : off ≤ (bs.length : Int)) :
    d.Read bufLen off = some ((bs.drop off.toNat).take bufLen, Status.OK) := by
  simp only [Item.Read, hdat]
  by_cases hc : off + (bufLen : Int) > (bs.length : Int)
  · rw [if_pos hc, if_pos ⟨h0, hle⟩]
    have harith : ((bs.length : Int).toNat - off.toNat) = bs.length - off.toNat := by
      omega
    rw [harith]
    have : (bs.drop off.toNat).take (bs.length - off.toNat) =
        (bs.drop off.toNat).take bufLen := by
      rw [List.take_eq_take]
      simp only [List.length_drop]
      omega
    rw [this]
  · rw [if_neg hc]
    have hoe : off ≤ off + (bufLen : Int) := by omega
    rw [if_pos ⟨h0, hoe⟩]
    have harith : (off + (bufLen : Int)).toNat - off.toNat = bufLen := by omega
    rw [harith]

theorem takeWhile_of_all (p : α → Bool) (l : List α) (h : l.all p = true) :
    l.takeWhile p = l := by
  induction l with
  | nil => rfl
  | cons a t ih =>
    have ha : p a = true := by simp only [List.all_cons, Bool.and_eq_true] at h; exact h.1
    have ht : t.all p = true := by simp only [List.all_cons, Bool.and_eq_true] at h; exact h.2
    rw [List.takeWhile_cons_of_pos ha, ih ht]

theorem all_of_takeWhile_length_eq (p : α → Bool) (l : List α)
    (h : (l.takeWhile p).length = l.length) : l.all p = true := by
  induction l with
  | nil => rfl
  | cons a t ih =>
    by_cases ha : p a = true
    · rw [List.takeWhile_cons_of_pos ha] at h
      simp only [List.length_cons, Nat.add_right_cancel_iff] at h
      simp [ha, ih h]
    · rw [List.takeWhile_cons_of_neg (by simpa using ha)] at h
      simp at h

theorem trailingRun_of_all (s : Str) (h : s.all isWordChar = true) :
    trailingRun s = s := by
  unfold trailingRun
  rw [takeWhile_of_all _ _ (by simpa using h), List.reverse_reverse]

theorem length_trailingRun_le (s : Str) : (trailingRun s).length ≤ s.length := by
  unfold trailingRun
  rw [List.length_reverse]
  calc (s.reverse.takeWhile isWordChar).length
      ≤ s.reverse.length := List.Sublist.length_le (List.takeWhile_sublist _)
    _ = s.length := List.length_reverse s

theorem trailingRun_cons_of_not (c : Char) (rest : Str)
    (h : ¬(isWordChar c = true ∧ rest.all isWordChar = true)) :
    trailingRun (c :: rest) = trailingRun rest := by
  unfold trailingRun
  rw [List.reverse_cons, List.takeWhile_append]
  by_cases hall : rest.all isWordChar = true
  · have hc : isWordChar c = false := by
      cases hcv : isWordChar c
      · rfl
      · exact absurd ⟨hcv, hall⟩ h
    have htw : rest.reverse.takeWhile isWordChar = rest.reverse :=
      takeWhile_of_all _ _ (by simpa using hall)
    rw [if_pos (by rw [htw]), htw]
    simp [hc]
  · rw [if_neg]
    intro hlen
    exact hall (by simpa using all_of_takeWhile_length_eq _ _ hlen)

theorem findWPlusIdx_eq (s : Str) :
    findWPlusIdx s =
      if trailingRun s = [] then none
      else some (s.length - (trailingRun s).length) := by
  induction s with
  | nil => rfl
  | cons c rest ih =>
    by_cases hc : isWordChar c = true ∧ rest.all isWordChar = true
    · have hall : (c :: rest).all isWordChar = true := by simp [hc.1, hc.2]
      have htr : trailingRun (c :: rest) = c :: rest := trailingRun_of_all _ hall
      simp [findWPlusIdx, hc.1, hc.2, htr]
    · have htr := trailingRun_cons_of_not c rest hc
      have hlen := length_trailingRun_le rest
      have hcond : ¬((isWordChar c && rest.all isWordChar) = true) := by
        cases h1 : isWordChar c
        · simp
        · cases h2 : rest.all isWordChar
          · simp
          · exact absurd ⟨h1, h2⟩ hc
      simp only [findWPlusIdx]
      rw [if_neg hcond, ih, htr]
      by_cases hnil : trailingRun rest = []
      · simp [hnil]
      · rw [if_neg hnil, if_neg hnil]
        simp only [Option.map_some', List.length_cons, Option.some.injEq]
        omega

theorem trailingRun_ne_nil_iff (s : Str) :
    trailingRun s ≠ [] ↔ ∃ c, s.getLast? = some c ∧ isWordChar c = true := by
  have hhead : s.reverse.head? = s.getLast? := List.head?_reverse s
  unfold trailingRun
  cases hr : s.reverse with
  | nil =>
    rw [hr] at hhead
    simp only [List.takeWhile_nil, List.reverse_nil, ne_eq, not_true_eq_false,
      false_iff, not_exists]
    intro c hcl
    rw [← hhead] at hcl
    simp at hcl
  | cons c t =>
    rw [hr] at hhead
    simp only [List.head?_cons] at hhead
    constructor
    · intro hne
      refine ⟨c, hhead.symm, ?_⟩
      by_contra hw
      rw [List.takeWhile_cons_of_neg (by simpa using hw)] at hne
      simp at hne
    · rintro ⟨c', hcl, hw⟩
      rw [← hhead] at hcl
      injection hcl with hcc
      subst hcc
      rw [List.takeWhile_cons_of_pos hw]
      simp

/-- The split point of the `\w+$` match: the stripped name decomposes as
a front part of length `len − runLen` followed by the trailing run. -/
theorem decomp_trailingRun (s : Str) :
    s = (s.reverse.dropWhile isWordChar).reverse ++ trailingRun s := by
  unfold trailingRun
  have h := List.takeWhile_append_dropWhile isWordChar s.reverse
  calc s = s.reverse.reverse := (List.reverse_reverse s).symm
    _ = (s.reverse.takeWhile isWordChar ++ s.reverse.dropWhile isWordChar).reverse := by rw [h]
    _ = (s.reverse.dropWhile isWordChar).reverse ++ (s.reverse.takeWhile isWordChar).reverse :=
        List.reverse_append _ _

/-! Claim C1. -/

/-- C1, counterexample: the claim says a read at any offset, including
offsets past the end of the buffered content, returns an OK byte slice.
On an item whose buffer is empty, a 1-byte read at offset 1 hits the Go
slice expression `(*d.data)[1:0]` — inverted bounds — which panics, so
`Read` does not return at all. -/
theorem c1_read_past_eof_counterexample : exEmptyFile.Read 1 1 = none := by decide

/-- C1, amended: for every item whose content buffer is present and every
read at an offset with `0 ≤ off ≤ length`, `Read` serves bytes directly
from the buffered content, clipped to the content length (a possibly
shorter or empty slice), with an OK status and touching no network (the
embedding of `Read` consults no oracle).  Offsets strictly past the
buffered length fault instead of returning an empty slice. -/
theorem c1_read_clipped_ok (d : Item) (bs : Bytes) (bufLen : Nat) (off : Int)
    (hdat : d.dat = some bs) (h0 : 0 ≤ off) (hle : off ≤ (bs.length : Int)) :
    d.Read bufLen off = some ((bs.drop off.toNat).take bufLen, Status.OK) :=
  read_serves d bs bufLen off hdat h0 hle

/-- C1, witness: a 5-byte read at offset 1 of the 3-byte buffer
`[7, 8, 9]` returns the shorter slice `[8, 9]` with OK. -/
theorem c1_read_witness : exSmallFile.Read 5 1 = some ([8, 9], Status.OK) := by
  rw [c1_read_clipped_ok exSmallFile [7, 8, 9] 5 1 rfl (by decide) (by decide)]
  decide

/-! Claim C2. -/

/-- Any item whose stored parent path has the Graph API's root-relative
form `"/drive/root:" ++ q` has path `q ++ "/" ++ name`: the marker is
trimmed and the root special case cannot apply. -/
theorem path_of_api_parent (d : Item) (p : ParentRef) (q : Str)
    (hp : d.parentRef = some p) (hpp : p.ppath = drivePre ++ q) :
    d.Path = some (q ++ str ("/") ++ d.name) := by
  simp only [Item.Path, hp]
  rw [if_neg]
  · have hassoc : p.ppath ++ str ("/") ++ d.name =
        drivePre ++ (q ++ str ("/") ++ d.name) := by
      rw [hpp]
      simp [List.append_assoc]
    rw [hassoc, trimPre_append]
  · rintro ⟨h1, -⟩
    rw [hpp] at h1
    have := List.append_eq_nil.mp h1
    have hne : drivePre ≠ [] := by decide
    exact hne this.1

/-- C2, counterexample: for a child of the root fetched from the API
(stored parent path `"/drive/root:"`), `Path()` yields `"/foo"`, which is
not the parent's path `"/"` joined with `"/"` and the name (that would be
`"//foo"`, and the `"/drive/root:"` marker does not occur in it to be
stripped).  So the claimed equation fails whenever the parent is the
root. -/
theorem c2_path_counterexample :
    exRootItem.Path = some (str ("/")) ∧
    exChildFoo.Path = some (str ("/foo")) ∧
    exChildFoo.Path ≠ some (trimPre drivePre (str ("/") ++ str ("/") ++ exChildFoo.name)) := by
  refine ⟨by decide, by decide, by decide⟩

/-- C2, amended: the root item's `Path()` is `"/"`; every item whose
stored parent path has the API form `"/drive/root:" ++ q` has
`Path() = q ++ "/" ++ name`; hence when the parent is a non-root item
whose own `Path()` is `q`, the child's path is the parent's path joined
with `"/"` and the child's name — but for children of the root (`q` empty)
the path is `"/" ++ name`, not `Path(root) ++ "/" ++ name`.  No network
access occurs (`Path` consults no oracle). -/
theorem c2_path_amended :
    (∀ (d : Item) (p : ParentRef), d.parentRef = some p → p.ppath = [] →
      d.name = str ("root") → d.Path = some (str ("/"))) ∧
    (∀ (d : Item) (p : ParentRef) (q : Str), d.parentRef = some p →
      p.ppath = drivePre ++ q → d.Path = some (q ++ str ("/") ++ d.name)) ∧
    (∀ (par c : Item) (p : ParentRef) (q : Str), par.Path = some q →
      c.parentRef = some p → p.ppath = drivePre ++ q →
      c.Path = some (q ++ str ("/") ++ c.name)) := by
  refine ⟨?_, ?_, ?_⟩
  · intro d p hp hpp hn
    simp only [Item.Path, hp]
    rw [if_pos ⟨hpp, hn⟩]
  · intro d p q hp hpp
    exact path_of_api_parent d p q hp hpp
  · intro par c p q hpar hp hpp
    exact path_of_api_parent c p q hp hpp

/-- C2, witness: the root's path is `"/"`, and a child of the non-root
directory `"/big"` gets path `"/big" ++ "/" ++ "d1"`. -/
theorem c2_path_witness :
    exRootItem.Path = some (str ("/")) ∧
    exSubdir1.Path = some (str ("/big") ++ str ("/") ++ str ("d1")) := by
  constructor
  · exact c2_path_amended.1 exRootItem ⟨[], []⟩ rfl rfl rfl
  · exact c2_path_amended.2.2 exBigDir exSubdir1 ⟨str ("bigid"), drivePre ++ str ("/big")⟩
      (str ("/big")) (by decide) rfl rfl

/-! Claim C3. -/

/-- C3, counterexample: the claim says writing at an offset beyond the
current content length concatenates.  On a freshly created empty item
(`var empty []byte`: length 0, capacity 0) a 1-byte write at offset 1
evaluates `(*d.data)[:1]`, a slice-bounds panic, so `Write` does not
return at all. -/
theorem c3_write_beyond_counterexample : exEmptyFile.Write [65] 1 = none := rfl

/-- Writes that return set the dirty flag (shared helper). -/
theorem write_sets_dirty (d : Item) (data : Bytes) (off : Int)
    (r : Item × Nat × Status) (hw : d.Write data off = some r) :
    r.1.hasChanges = true := by
  cases hd : d.dat with
  | none => simp [Item.Write, hd] at hw
  | some bs =>
    simp only [Item.Write, hd] at hw
    by_cases h1 : off + ((data.length : Nat) : Int) > (d.size : Int) - 1
    · rw [if_pos h1] at hw
      by_cases h2 : 0 ≤ off ∧ off ≤ ((bs.length + d.datTail.length : Nat) : Int)
      · rw [if_pos h2] at hw
        cases hw
        simp
      · rw [if_neg h2] at hw
        cases hw
    · rw [if_neg h1] at hw
      by_cases h2 : 0 ≤ off ∧ off ≤ ((bs.length : Nat) : Int)
      · rw [if_pos h2] at hw
        cases hw
        simp
      · rw [if_neg h2] at hw
        cases hw

/-- Truncates that return set the dirty flag (shared helper). -/
theorem truncate_sets_dirty (d : Item) (size : Nat)
    (r : Item × Status) (hw : d.Truncate size = some r) :
    r.1.hasChanges = true := by
  cases hd : d.dat with
  | none => simp [Item.Truncate, hd] at hw
  | some bs =>
    simp only [Item.Truncate, hd] at hw
    by_cases h1 : size ≤ bs.length + d.datTail.length
    · rw [if_pos h1] at hw
      cases hw
      simp
    · rw [if_neg h1] at hw
      cases hw

/-- Reading a whole present buffer from offset 0 returns it verbatim
(shared helper). -/
theorem read_full (d : Item) (bs : Bytes) (hdat : d.dat = some bs) :
    d.Read bs.length 0 = some (bs, Status.OK) := by
  have h := read_serves d bs bs.length 0 hdat (le_refl 0) (by omega)
  simpa using h

/-- C3, amended: (1) writing `B` at offset 0 to an empty item and then
reading `len(B)` bytes at offset 0 returns exactly `B`; (2) writing `B2`
at an offset *equal to* the current content length appends, yielding
`bs ++ B2`; (3) a write at an offset within the content that returns
leaves every byte preceding the offset intact; and a write at an offset
*strictly beyond* the content length is capacity-dependent rather than a
reliable concatenation: (4) it faults on the slice bound whenever the
offset exceeds the buffer capacity — always on a freshly created empty
item, whose buffer has capacity 0 — and (5) within spare capacity (for
example after a shrinking `Truncate`) it append-succeeds, exposing the
stale backing-array bytes between the length and the offset instead of
zero padding. -/
theorem c3_write_read_roundtrip :
    (∀ (d : Item) (B : Bytes), d.dat = some [] → d.size = 0 →
      ∃ d', d.Write B 0 = some (d', B.length % 2 ^ 32, Status.OK) ∧
        d'.dat = some B ∧ d'.Read B.length 0 = some (B, Status.OK)) ∧
    (∀ (d : Item) (bs B2 : Bytes), d.dat = some bs → d.size = bs.length →
      ∃ d', d.Write B2 (bs.length : Int) = some (d', B2.length % 2 ^ 32, Status.OK) ∧
        d'.dat = some (bs ++ B2)) ∧
    (∀ (d : Item) (bs B2 : Bytes) (off : Int) (r : Item × Nat × Status),
      d.dat = some bs → off.toNat ≤ bs.length → d.Write B2 off = some r →
      ∃ nb, r.1.dat = some nb ∧ nb.take off.toNat = bs.take off.toNat) ∧
    (∀ (d : Item) (bs B2 : Bytes) (off : Int), d.dat = some bs →
      ((bs.length + d.datTail.length : Nat) : Int) < off → d.Write B2 off = none) ∧
    (∀ (d : Item) (bs tl B2 : Bytes) (off : Int), d.dat = some bs → d.datTail = tl →
      d.size = bs.length → ((bs.length : Nat) : Int) < off →
      off ≤ ((bs.length + tl.length : Nat) : Int) →
      ∃ d', d.Write B2 off = some (d', B2.length % 2 ^ 32, Status.OK) ∧
        d'.dat = some (bs ++ tl.take (off.toNat - bs.length) ++ B2)) := by
  refine ⟨?_, ?_, ?_, ?_, ?_⟩
  · intro d B hdat hsize
    simp only [Item.Write, hdat, hsize]
    rw [if_pos (by omega), if_pos (by constructor <;> simp)]
    refine ⟨_, rfl, by simp, ?_⟩
    exact read_full _ B (by simp)
  · intro d bs B2 hdat hsize
    simp only [Item.Write, hdat, hsize]
    rw [if_pos (by omega), if_pos (by constructor <;> omega)]
    refine ⟨_, rfl, ?_⟩
    have htake : (bs ++ d.datTail).take ((bs.length : Int).toNat) = bs := by
      rw [Int.toNat_ofNat]
      exact List.take_left bs d.datTail
    simp [htake]
  · intro d bs B2 off r hdat hoff hw
    simp only [Item.Write, hdat] at hw
    by_cases h1 : off + ((B2.length : Nat) : Int) > (d.size : Int) - 1
    · rw [if_pos h1] at hw
      by_cases h2 : 0 ≤ off ∧ off ≤ ((bs.length + d.datTail.length : Nat) : Int)
      · rw [if_pos h2] at hw
        cases hw
        refine ⟨(bs ++ d.datTail).take off.toNat ++ B2, by simp, ?_⟩
        have hlen1 : ((bs ++ d.datTail).take off.toNat).length = off.toNat := by
          simp only [List.length_take, List.length_append]
          omega
        rw [List.take_left' hlen1, List.take_append_eq_append_take]
        have hz : off.toNat - bs.length = 0 := by omega
        rw [hz]
        simp
      · rw [if_neg h2] at hw
        cases hw
    · rw [if_neg h1] at hw
      by_cases h2 : 0 ≤ off ∧ off ≤ ((bs.length : Nat) : Int)
      · rw [if_pos h2] at hw
        cases hw
        refine ⟨(bs.take off.toNat ++ B2.take (min B2.length (bs.length - off.toNat))) ++
          bs.drop (off.toNat + min B2.length (bs.length - off.toNat)), by simp, ?_⟩
        have hlt : off.toNat ≤ bs.length := hoff
        rw [List.append_assoc]
        exact List.take_left' (by simp [hlt])
      · rw [if_neg h2] at hw
        cases hw
  · intro d bs B2 off hdat hbeyond
    simp only [Item.Write, hdat]
    have h2a : ¬(0 ≤ off ∧ off ≤ ((bs.length + d.datTail.length : Nat) : Int)) := by
      rintro ⟨-, hc⟩
      omega
    have h2b : ¬(0 ≤ off ∧ off ≤ ((bs.length : Nat) : Int)) := by
      rintro ⟨-, hc⟩
      omega
    by_cases h1 : off + ((B2.length : Nat) : Int) > (d.size : Int) - 1
    · rw [if_pos h1, if_neg h2a]
    · rw [if_neg h1, if_neg h2b]
  · intro d bs tl B2 off hdat htl hsize hlen hcap
    simp only [Item.Write, hdat, htl, hsize]
    rw [if_pos (by omega), if_pos (by constructor <;> omega)]
    refine ⟨_, rfl, ?_⟩
    have hbsfull : bs.take off.toNat = bs := List.take_of_length_le (by omega)
    have htake : (bs ++ tl).take off.toNat = bs ++ tl.take (off.toNat - bs.length) := by
      rw [List.take_append_eq_append_take, hbsfull]
    simp [htake, List.append_assoc]

/-- C3, witness: writing `[65, 66]` at offset 0 to a fresh empty item and
reading 2 bytes back returns `[65, 66]` with OK. -/
theorem c3_write_read_witness :
    ∃ d', exEmptyFile.Write [65, 66] 0 = some (d', 2 % 2 ^ 32, Status.OK) ∧
      d'.dat = some [65, 66] ∧ d'.Read 2 0 = some ([65, 66], Status.OK) := by
  have h := c3_write_read_roundtrip.1 exEmptyFile [65, 66] rfl rfl
  simpa using h

/-! Claim C4. -/

/-- A dirty item stays dirty under every embedded operation: no operation
assigns `hasChanges = false`, and unmarshalling a response into the
existing item cannot touch the unexported field (shared helper). -/
theorem step_preserves_dirty (d : Item) (op : Op) (d' : Item)
    (hstep : step d op = some d') (hdirty : d.hasChanges = true) :
    d'.hasChanges = true := by
  cases op with
  | write data off =>
    simp only [step] at hstep
    cases hw : d.Write data off with
    | none => rw [hw] at hstep; cases hstep
    | some r =>
      rw [hw] at hstep
      cases hstep
      exact write_sets_dirty d data off r hw
  | truncate size =>
    simp only [step] at hstep
    cases hw : d.Truncate size with
    | none => rw [hw] at hstep; cases hstep
    | some r =>
      rw [hw] at hstep
      cases hstep
      exact truncate_sets_dirty d size r hw
  | utimens t =>
    simp only [step] at hstep
    cases hstep
    simpa using hdirty
  | fetchContent r =>
    cases r with
    | error e =>
      simp only [step, Item.FetchContent] at hstep
      cases hstep
      exact hdirty
    | ok body =>
      cases d with
      | mk i n sz mt md hc dt tl pr f fa ch =>
        simp only [step, Item.FetchContent] at hstep
        cases hstep
        simpa using hdirty
  | getChildren r =>
    simp only [step, Item.GetChildren] at hstep
    by_cases hcached : (!d.IsDir || d.children.isSome) = true
    · rw [if_pos hcached] at hstep
      simp only [Option.map_some'] at hstep
      cases hstep
      exact hdirty
    · rw [if_neg hcached] at hstep
      cases hp : d.parentRef with
      | none => rw [hp] at hstep; cases hstep
      | some p =>
        rw [hp] at hstep
        cases r with
        | error e =>
          simp only [Option.map_some'] at hstep
          cases hstep
          exact hdirty
        | ok raws =>
          simp only [Option.map_some'] at hstep
          cases hstep
          simpa using hdirty
  | upload r =>
    simp only [step, Item.Upload] at hstep
    cases hd : d.dat with
    | none => rw [hd] at hstep; cases hstep
    | some bs =>
      rw [hd] at hstep
      cases r with
      | error e =>
        simp only [] at hstep
        cases hstep
        exact hdirty
      | ok p =>
        simp only [] at hstep
        cases hstep
        simpa using hdirty
  | modeInit =>
    cases d with
    | mk i n sz mt md hc dt tl pr f fa ch =>
      simp only [step] at hstep
      cases hstep
      simpa using hdirty

/-- C4: the dirty flag is `false` on every item freshly unmarshalled from
a remote response; any `Write` or `Truncate` that returns leaves it
`true`; and no embedded operation — including a successful `Upload`,
whose response is unmarshalled into the existing item and therefore
cannot assign the unexported flag — ever takes it back from `true` to
`false`. -/
theorem c4_dirty_flag_lifecycle :
    (∀ p : RawPatch, (unmarshalFresh p).hasChanges = false) ∧
    (∀ (d : Item) (data : Bytes) (off : Int) (r : Item × Nat × Status),
      d.Write data off = some r → r.1.hasChanges = true) ∧
    (∀ (d : Item) (size : Nat) (r : Item × Status),
      d.Truncate size = some r → r.1.hasChanges = true) ∧
    (∀ (d : Item) (op : Op) (d' : Item),
      step d op = some d' → d.hasChanges = true → d'.hasChanges = true) := by
  refine ⟨?_, ?_, ?_, ?_⟩
  · intro p
    rfl
  · intro d data off r hw
    exact write_sets_dirty d data off r hw
  · intro d size r hw
    exact truncate_sets_dirty d size r hw
  · intro d op d' hstep hdirty
    exact step_preserves_dirty d op d' hstep hdirty

/-- A dirty item (non-empty buffer, `hasChanges = true`), for exercising
the preservation part of the dirty-flag lifecycle. -/
def exDirtyFile : Item :=
  .mk (str ("id3")) (str ("h")) 2 none (32768 + 420) true (some [1, 2]) []
    (some ⟨str ("rootid"), drivePre⟩) none none none

/-- C4, witness: a fresh unmarshal is clean; a concrete write dirties the
item; a concrete upload application on a dirty item leaves it dirty. -/
theorem c4_dirty_witness :
    (unmarshalFresh ⟨none, none, none, none, none, none, none⟩).hasChanges = false ∧
    (exEmptyFile.setDatSizeDirty [65] []).hasChanges = true ∧
    (applyPatch exDirtyFile ⟨some (str ("newid")), none, some 2, none, none, none, none⟩).hasChanges = true := by
  refine ⟨c4_dirty_flag_lifecycle.1 _, ?_, ?_⟩
  · exact c4_dirty_flag_lifecycle.2.1 exEmptyFile [65] 0
      (exEmptyFile.setDatSizeDirty [65] [], 1 % 2 ^ 32, Status.OK) rfl
  · exact c4_dirty_flag_lifecycle.2.2.2 exDirtyFile
      (.upload (.ok ⟨some (str ("newid")), none, some 2, none, none, none, none⟩))
      (applyPatch exDirtyFile ⟨some (str ("newid")), none, some 2, none, none, none, none⟩)
      rfl rfl

/-! Claim C5. -/

/-- C5: for a non-directory, and for a directory whose children map is
already non-nil, `GetChildren` returns the cached value with no error,
leaves the item unchanged, and does not consult the listing oracle; in
particular two consecutive calls on an already-filled directory both skip
the network and return the same map. -/
theorem c5_children_cache_idempotent :
    (∀ (d : Item) (fetch : Except Str (List Item)),
      d.IsDir = false ∨ d.children ≠ none →
      d.GetChildren fetch = some (.ok d.children, d, false)) ∧
    (∀ (d : Item) (fetch1 fetch2 : Except Str (List Item)), d.children ≠ none →
      d.GetChildren fetch1 = some (.ok d.children, d, false) ∧
      d.GetChildren fetch2 = some (.ok d.children, d, false)) := by
  have hbase : ∀ (d : Item) (fetch : Except Str (List Item)),
      d.IsDir = false ∨ d.children ≠ none →
      d.GetChildren fetch = some (.ok d.children, d, false) := by
    intro d fetch h
    have hcond : (!d.IsDir || d.children.isSome) = true := by
      rcases h with h | h
      · rw [h]
        rfl
      · rw [Option.ne_none_iff_isSome] at h
        rw [h]
        simp
    simp only [Item.GetChildren]
    rw [if_pos hcond]
  refine ⟨hbase, ?_⟩
  intro d fetch1 fetch2 h
  exact ⟨hbase d fetch1 (Or.inr h), hbase d fetch2 (Or.inr h)⟩

/-- C5, witness: on a directory with three cached children, two calls
with different (even failing) oracles both return the cached map and
report no network use. -/
theorem c5_children_witness :
    exBigDir.GetChildren (.error (str ("offline"))) =
      some (.ok exBigDir.children, exBigDir, false) ∧
    exBigDir.GetChildren (.ok []) =
      some (.ok exBigDir.children, exBigDir, false) := by
  exact c5_children_cache_idempotent.2 exBigDir (.error (str ("offline"))) (.ok [])
    (by simp [exBigDir, Item.children])

/-! Claim C6. -/

/-- C6: on an unfilled directory, a failing listing call propagates the
error, leaves the item — in particular its nil children map — unchanged,
and a subsequent call with a working oracle does hit the network again
and fills the map: a failed fetch does not poison the item. -/
theorem c6_children_fetch_failure_retries (d : Item) (p : ParentRef) (e : Str)
    (hdir : d.IsDir = true) (hch : d.children = none) (hp : d.parentRef = some p) :
    d.GetChildren (.error e) = some (.error e, d, true) ∧
    (∀ raws : List Item,
      d.GetChildren (.ok raws) =
        some (.ok (some (buildChildMap raws)),
          d.setChildren (some (buildChildMap raws)), true) ∧
      (d.setChildren (some (buildChildMap raws))).children = some (buildChildMap raws)) := by
  have hcond : ¬((!d.IsDir || d.children.isSome) = true) := by
    rw [hdir, hch]
    simp
  constructor
  · simp only [Item.GetChildren]
    rw [if_neg hcond, hp]
  · intro raws
    constructor
    · simp only [Item.GetChildren]
      rw [if_neg hcond, hp]
    · simp

/-- C6, witness: a failing listing on an unfilled directory returns that
error with the item unchanged and the network flag set. -/
theorem c6_children_witness :
    exEmptyDir.GetChildren (.error (str ("offline"))) =
      some (.error (str ("offline")), exEmptyDir, true) :=
  (c6_children_fetch_failure_retries exEmptyDir ⟨str ("rootid"), drivePre⟩
    (str ("offline")) (by decide) rfl rfl).1

/-! Claim C7. -/

/-- C7, counterexample: when the item lookup inside `Rmdir` fails, the
code answers `fuse.EREMOTEIO`, which is not the "no such entry" status
`fuse.ENOENT` the claim requires. -/
theorem c7_rmdir_counterexample :
    FuseRmdir (.error (str ("item does not exist"))) (fun _ => .ok ()) = Status.EREMOTEIO ∧
    Status.EREMOTEIO ≠ Status.ENOENT := by
  exact ⟨rfl, by decide⟩

/-- C7, amended: a failed lookup inside `Rmdir` is surfaced to the kernel
as the remote-I/O status (`EREMOTEIO`), not as the not-found status (the
operations that map lookup failures to `ENOENT` are `GetAttr`, `OpenDir`
and `Open`, not `Rmdir`). -/
theorem c7_rmdir_lookup_failure (e : Str) (del : Str → Except Str Unit) :
    FuseRmdir (.error e) del = Status.EREMOTEIO := rfl

/-! Claim C8. -/

/-- C8: a directory's `NLink` is `2` plus the number of its immediate
children that are directories (whenever that value fits in the `uint32`
the source computes it in), the count being zero when the children map has
never been fetched; a file's `NLink` is always `1`. -/
theorem c8_nlink_counts_subdirs :
    (∀ d : Item, d.IsDir = true →
      2 + (d.children.getD []).countP (fun x => x.2.IsDir) < 2 ^ 32 →
      d.NLink = 2 + (d.children.getD []).countP (fun x => x.2.IsDir)) ∧
    (∀ d : Item, d.IsDir = true → d.children = none → d.NLink = 2) ∧
    (∀ d : Item, d.IsDir = false → d.NLink = 1) := by
  refine ⟨?_, ?_, ?_⟩
  · intro d hdir h
    have hcount : (d.children.getD []).countP (fun x => x.2.IsDir) < 2 ^ 32 := by omega
    simp only [Item.NLink, hdir, if_pos]
    rw [countSubdirsU32_eq_countP _ hcount]
    exact Nat.mod_eq_of_lt h
  · intro d hdir hch
    simp only [Item.NLink, hdir, if_pos, hch]
    rfl
  · intro d hdir
    simp [Item.NLink, hdir]

/-- C8, witness: the specification's example — a directory with 3 cached
children of which 2 are directories reports `NLink = 4`. -/
theorem c8_nlink_witness : exBigDir.NLink = 4 := by
  rw [c8_nlink_counts_subdirs.1 exBigDir (by decide) (by decide)]
  decide

/-! Claim C9. -/

/-- C9: every item built by `NewDriveItem` has a non-nil (empty) children
map from the moment of creation, so `GetChildren` on it — even its very
first invocation, even with a failing oracle — returns at once with the
cached empty map, no error, and no network use. -/
theorem c9_new_item_never_fetches :
    ∀ (name : Str) (mode : Nat) (parent : Item) (pp : ParentRef) (tNow : Int)
      (fetch : Except Str (List Item)),
      parent.parentRef = some pp →
      ∃ d, NewDriveItem name mode parent tNow = some d ∧ d.children = some [] ∧
        d.GetChildren fetch = some (.ok (some []), d, false) := by
  intro name mode parent pp tNow fetch hp
  refine ⟨.mk [] name 0 (some tNow) mode false (some []) []
    (some ⟨parent.id, pp.ppath ++ str ("/") ++ parent.name⟩) none none (some []), ?_, rfl, ?_⟩
  · simp only [NewDriveItem, hp]
  · simp only [Item.GetChildren]
    rw [if_pos]
    · rfl
    · simp [Item.children]

/-- C9, witness: a locally created item under the root answers its first
`GetChildren` with the empty map and no network use even though the
listing oracle would fail. -/
theorem c9_new_item_witness :
    (NewDriveItem (str ("n")) 493 exRootItem 0).bind
      (fun d => (d.GetChildren (.error (str ("offline")))).map (fun r => r.2.2)) =
    some false := by
  obtain ⟨d, hd, -, hg⟩ := c9_new_item_never_fetches (str ("n")) 493 exRootItem ⟨[], []⟩ 0
    (.error (str ("offline"))) rfl
  rw [hd]
  simp [hg]

/-! Claim C10. -/

/-- C10: after prepending `"/"` and stripping at most one trailing slash,
`Mkdir`'s split is total exactly when the resulting path ends in a word
character (`[0-9A-Za-z_]`): in that case the leaf is the maximal trailing
run of word characters and the parent is everything before it; when the
path ends in a non-word character the regexp has no match, so indexing
its nil result faults and the split is undefined. -/
theorem c10_mkdir_leaf_split (rawName : Str) :
    (∀ c : Char, (mkdirStripped rawName).getLast? = some c → isWordChar c = true →
      mkdirSplit rawName =
        some ((mkdirStripped rawName).take
            ((mkdirStripped rawName).length - (trailingRun (mkdirStripped rawName)).length),
          trailingRun (mkdirStripped rawName))) ∧
    ((∀ c : Char, (mkdirStripped rawName).getLast? = some c → isWordChar c = false) →
      mkdirSplit rawName = none) := by
  constructor
  · intro c hcl hcw
    have hne : trailingRun (mkdirStripped rawName) ≠ [] :=
      (trailingRun_ne_nil_iff _).mpr ⟨c, hcl, hcw⟩
    have hdec := decomp_trailingRun (mkdirStripped rawName)
    have hlenA : ((mkdirStripped rawName).reverse.dropWhile isWordChar).reverse.length =
        (mkdirStripped rawName).length - (trailingRun (mkdirStripped rawName)).length := by
      have hl := congrArg List.length hdec
      rw [List.length_append] at hl
      omega
    have hdrop : (mkdirStripped rawName).drop
        ((mkdirStripped rawName).length - (trailingRun (mkdirStripped rawName)).length) =
        trailingRun (mkdirStripped rawName) := by
      calc (mkdirStripped rawName).drop
            ((mkdirStripped rawName).length - (trailingRun (mkdirStripped rawName)).length)
          = (((mkdirStripped rawName).reverse.dropWhile isWordChar).reverse ++
              trailingRun (mkdirStripped rawName)).drop
            ((mkdirStripped rawName).length - (trailingRun (mkdirStripped rawName)).length) := by
            rw [← hdec]
        _ = trailingRun (mkdirStripped rawName) := List.drop_left' hlenA
    unfold mkdirSplit
    rw [findWPlusIdx_eq, if_neg hne]
    simp only [hdrop]
  · intro hno
    have hnil : trailingRun (mkdirStripped rawName) = [] := by
      by_contra hne
      obtain ⟨c, hcl, hcw⟩ := (trailingRun_ne_nil_iff _).mp hne
      rw [hno c hcl] at hcw
      cases hcw
    unfold mkdirSplit
    rw [findWPlusIdx_eq, if_pos hnil]

/-- C10, witness: `Mkdir("docs/newdir")` splits into parent `"/docs/"`
and leaf `"newdir"` (the path ends in the word character `'r'`), and
`Mkdir("docs/x..")` — the normalized path ends in `'.'`, a non-word
character — faults. -/
theorem c10_mkdir_witness :
    mkdirSplit (str ("docs/newdir")) = some (str ("/docs/"), str ("newdir")) ∧
    mkdirSplit (str ("docs/x..")) = none := by
  constructor
  · rw [(c10_mkdir_leaf_split (str ("docs/newdir"))).1 'r' (by decide) (by decide)]
    decide
  · exact (c10_mkdir_leaf_split (str ("docs/x.."))).2 (by decide)

end OnedriverSpec
